import Mathlib

/-
Verification of the CSS directional-conversion service:
the conversion entry points (`ltrToRtl`, `rtlToLtr` in src/services,
together with the regex preprocessing chain of `rtlToLtr`), the
option validator (`validateRtlcssOptions`), and the in-memory
conversion cache (`CacheService`).  The rtlcss transform engine itself
is an external package that is not part of the repository source; it is
modelled from the specification's property rule table.
-/

namespace RtlcssService

/-! ## Character helpers -/

/-- Lower-case an ASCII code point (used for case-insensitive regex flags). -/
def lcNat (n : Nat) : Nat := if 65 ≤ n ∧ n ≤ 90 then n + 32 else n

/-- Case-insensitive character comparison (the `i` flag of the source regexes). -/
def ciCharEq (a b : Char) : Bool := lcNat a.toNat == lcNat b.toNat

/-- Whitespace as matched by the regex class `\s` (the subset that occurs in CSS text). -/
def isWsChar (c : Char) : Bool := c == ' ' || c == '\n' || c == '\t' || c == '\r'

/-- Word characters for the regex word-boundary assertion `\b`: `[A-Za-z0-9_]`. -/
def isWordChar (c : Char) : Bool :=
  (97 ≤ c.toNat && c.toNat ≤ 122) || (65 ≤ c.toNat && c.toNat ≤ 90) ||
  (48 ≤ c.toNat && c.toNat ≤ 57) || c.toNat == 95

/-- Match a literal case-insensitively; returns the remaining input on success. -/
def matchLit : List Char → List Char → Option (List Char)
  | [], cs => some cs
  | _ :: _, [] => none
  | p :: ps, c :: cs => if ciCharEq p c then matchLit ps cs else none

/-! ## Regex-replacement engine

The fifteen preprocessing steps of `rtlToLtr` (src/services, RTL→LTR
conversion) are global, case-insensitive `String.replace` calls whose
patterns are built from literals, `\s*`, one leading alternation group
`(margin|padding|border)`, and a trailing word boundary `\b`.  The
embedding represents each pattern as an `RRule` and replays JavaScript
`replace(/.../gi)` semantics: leftmost, non-overlapping matches, the
replacement text never rescanned, `$1` substituted by the captured
alternative as it appeared in the input. -/

inductive PatTok where
  | lit (s : List Char)
  | ws
  | wb
deriving DecidableEq, Repr

/-- Match a group-free pattern tail; `\s*` is greedy (no following token
can consume whitespace in any source pattern, so greediness is exact). -/
def matchSimple : List PatTok → List Char → Option (List Char)
  | [], cs => some cs
  | .lit p :: ts, cs =>
    match matchLit p cs with
    | some rest => matchSimple ts rest
    | none => none
  | .ws :: ts, cs => matchSimple ts (cs.dropWhile isWsChar)
  | .wb :: ts, cs =>
    match cs with
    | [] => matchSimple ts []
    | c :: _ => if isWordChar c then none else matchSimple ts cs

/-- One `replace` step: an optional leading alternation group (captured as
`$1`), a group-free pattern tail, and the replacement text that follows the
capture (the whole replacement when there is no group). -/
structure RRule where
  alts : List (List Char)
  tail : List PatTok
  rep : List Char
deriving Repr

/-- Try the alternatives of the leading group in order; on success return
the full replacement (captured text ++ suffix) and the rest of the input. -/
def tryAlts (tail : List PatTok) (rep : List Char) (cs : List Char) :
    List (List Char) → Option (List Char × List Char)
  | [] => none
  | a :: more =>
    match matchLit a cs with
    | some rest1 =>
      match matchSimple tail rest1 with
      | some rest2 => some (cs.take a.length ++ rep, rest2)
      | none => tryAlts tail rep cs more
    | none => tryAlts tail rep cs more

/-- Match one rule at the current position; returns replacement and rest. -/
def matchRule (r : RRule) (cs : List Char) : Option (List Char × List Char) :=
  if r.alts.isEmpty then
    match matchSimple r.tail cs with
    | some rest => some (r.rep, rest)
    | none => none
  else tryAlts r.tail r.rep cs r.alts

/-- Scan the input left to right applying `r` at every position, like a
global `replace`.  Fuel starts at the input length; every match consumes at
least one character (all patterns begin with a nonempty literal), so the
fuel never runs out on real inputs; the fallback keeps the function total. -/
def replaceGo (r : RRule) : Nat → List Char → List Char
  | 0, cs => cs
  | _ + 1, [] => []
  | fuel + 1, c :: cs =>
    match matchRule r (c :: cs) with
    | some (rep, rest) =>
      if rest.length < cs.length + 1 then rep ++ replaceGo r fuel rest
      else c :: replaceGo r fuel cs
    | none => c :: replaceGo r fuel cs

/-- Apply one global replacement step to a string. -/
def applyRule (r : RRule) (s : String) : String := ⟨replaceGo r s.data.length s.data⟩

/-! ## The preprocessing chain of `rtlToLtr`

One `RRule` per `.replace(...)` call, in source order. -/

def ruleDirRtl : RRule :=
  ⟨[], [.lit "direction".data, .ws, .lit ":".data, .ws, .lit "rtl".data, .ws, .lit ";".data],
    "direction: __LTR_PLACEHOLDER__;".data⟩

def ruleDirLtr : RRule :=
  ⟨[], [.lit "direction".data, .ws, .lit ":".data, .ws, .lit "ltr".data, .ws, .lit ";".data],
    "direction: rtl;".data⟩

def ruleDirPlaceholder : RRule :=
  ⟨[], [.lit "direction".data, .ws, .lit ":".data, .ws, .lit "__LTR_PLACEHOLDER__".data, .ws, .lit ";".data],
    "direction: ltr;".data⟩

def rulePropLeft : RRule :=
  ⟨["margin".data, "padding".data, "border".data], [.lit "-left".data],
    "-__RIGHT_PLACEHOLDER__".data⟩

def rulePropRight : RRule :=
  ⟨["margin".data, "padding".data, "border".data], [.lit "-right".data],
    "-left".data⟩

def rulePropPlaceholder : RRule :=
  ⟨["margin".data, "padding".data, "border".data], [.lit "-__RIGHT_PLACEHOLDER__".data],
    "-right".data⟩

def ruleValLeft : RRule :=
  ⟨[], [.lit ":".data, .ws, .lit "left".data, .wb], ": __RIGHT_PLACEHOLDER__".data⟩

def ruleValRight : RRule :=
  ⟨[], [.lit ":".data, .ws, .lit "right".data, .wb], ": left".data⟩

def ruleValPlaceholder : RRule :=
  ⟨[], [.lit ":".data, .ws, .lit "__RIGHT_PLACEHOLDER__".data, .wb], ": right".data⟩

def ruleFloatLeft : RRule :=
  ⟨[], [.lit "float".data, .ws, .lit ":".data, .ws, .lit "left".data, .ws, .lit ";".data],
    "float: __RIGHT_PLACEHOLDER__;".data⟩

def ruleFloatRight : RRule :=
  ⟨[], [.lit "float".data, .ws, .lit ":".data, .ws, .lit "right".data, .ws, .lit ";".data],
    "float: left;".data⟩

def ruleFloatPlaceholder : RRule :=
  ⟨[], [.lit "float".data, .ws, .lit ":".data, .ws, .lit "__RIGHT_PLACEHOLDER__".data, .ws, .lit ";".data],
    "float: right;".data⟩

def ruleTextAlignLeft : RRule :=
  ⟨[], [.lit "text-align".data, .ws, .lit ":".data, .ws, .lit "left".data, .ws, .lit ";".data],
    "text-align: __RIGHT_PLACEHOLDER__;".data⟩

def ruleTextAlignRight : RRule :=
  ⟨[], [.lit "text-align".data, .ws, .lit ":".data, .ws, .lit "right".data, .ws, .lit ";".data],
    "text-align: left;".data⟩

def ruleTextAlignPlaceholder : RRule :=
  ⟨[], [.lit "text-align".data, .ws, .lit ":".data, .ws, .lit "__RIGHT_PLACEHOLDER__".data, .ws, .lit ";".data],
    "text-align: right;".data⟩

/-- The fifteen replacement steps of the RTL→LTR preprocessing, in the order
they are chained in the source. -/
def preprocessRules : List RRule :=
  [ruleDirRtl, ruleDirLtr, ruleDirPlaceholder,
   rulePropLeft, rulePropRight, rulePropPlaceholder,
   ruleValLeft, ruleValRight, ruleValPlaceholder,
   ruleFloatLeft, ruleFloatRight, ruleFloatPlaceholder,
   ruleTextAlignLeft, ruleTextAlignRight, ruleTextAlignPlaceholder]

/-- The preprocessing performed by `rtlToLtr` before handing the text to the
rtlcss engine: the chained global replacements above. -/
def preprocess (s : String) : String :=
  preprocessRules.foldl (fun acc r => applyRule r acc) s

/-! ## The rtlcss transform engine (modelled from the spec)

The actual engine is the external `rtlcss` npm package required by the
conversion service; its source is not part of this repository.  It is
modelled here from the specification: selectors, braces and whitespace are
opaque and passed through; each `property: value;` declaration is rewritten
by the first matching rule of the property rule table, property-name rules
before value-keyword rules. -/

/-- Swap a list of search/replacement word pairs in a single left-to-right
pass (each replacement is emitted and never rescanned, so the swap pairs act
simultaneously).  When `bounded` is set a pair only fires between word
boundaries, matching keyword-token replacement. -/
def findPair (pairs : List (List Char × List Char)) (cs : List Char)
    (prev : Option Char) (bounded : Bool) : Option (List Char × List Char) :=
  match pairs with
  | [] => none
  | (src, dst) :: more =>
    match matchLit src cs with
    | some rest =>
      let okL := !bounded || (match prev with | none => true | some p => !isWordChar p)
      let okR := !bounded || (match rest with | [] => true | r :: _ => !isWordChar r)
      if okL && okR then some (dst, rest) else findPair more cs prev bounded
    | none => findPair more cs prev bounded

/-- Worker for `swapTokens`; fuel starts at the input length and every match
consumes at least one character. -/
def swapTokensGo (pairs : List (List Char × List Char)) (bounded : Bool) :
    Nat → Option Char → List Char → List Char
  | 0, _, cs => cs
  | _ + 1, _, [] => []
  | fuel + 1, prev, c :: cs =>
    match findPair pairs (c :: cs) prev bounded with
    | some (dst, rest) =>
      if rest.length < cs.length + 1 then
        dst ++ swapTokensGo pairs bounded fuel (dst.getLast?) rest
      else c :: swapTokensGo pairs bounded fuel (some c) cs
    | none => c :: swapTokensGo pairs bounded fuel (some c) cs

def swapTokens (pairs : List (List Char × List Char)) (bounded : Bool) (s : String) : String :=
  ⟨swapTokensGo pairs bounded s.data.length none s.data⟩

/-- Modelled from the spec: the `*-left`/`*-right` property-name rule
category — `left` and `right` are swapped inside the property name
(covers `margin-left`, `border-top-left-radius`, bare `left`/`right`, …). -/
def nameSwapLR (s : String) : String :=
  swapTokens [("left".data, "right".data), ("right".data, "left".data)] false s

/-- Modelled from the spec: the keyword-value rule category — the value
tokens `left` and `right` are swapped. -/
def valueSwapLR (s : String) : String :=
  swapTokens [("left".data, "right".data), ("right".data, "left".data)] true s

/-- Modelled from the spec: the `direction` rule — `ltr` and `rtl` value
tokens are swapped. -/
def dirSwap (s : String) : String :=
  swapTokens [("ltr".data, "rtl".data), ("rtl".data, "ltr".data)] true s

/-- Split a value on whitespace runs into its space-separated components. -/
def splitWsStr (s : String) : List String :=
  let step := fun (acc : List (List Char) × List Char) (c : Char) =>
    if isWsChar c then (if acc.2 = [] then acc.1 else acc.1 ++ [acc.2], ([] : List Char))
    else (acc.1, acc.2 ++ [c])
  let r := s.data.foldl step ([], [])
  (if r.2 = [] then r.1 else r.1 ++ [r.2]).map (fun l => (⟨l⟩ : String))

/-- Modelled from the spec: the property rule table applied to one
declaration, in the category priority order of the spec — property-name
swap first, then the shorthand box reorder `(top,right,bottom,left) →
(top,left,bottom,right)` for `margin`/`padding`/`border-width` with four
space-separated components, the `border-radius` shorthand reorder
`(TL,TR,BR,BL) → (TR,TL,BL,BR)`, the `direction` token swap, and finally
the generic `left`/`right` keyword-value swap.  Declarations matching no
rule pass through unchanged.  (The percentage-complement and
`translate`-negation rules of the table are not exercised by any claim and
are left out of the model.) -/
def transformDecl (prop value : String) : String × String :=
  if nameSwapLR prop = prop then
    if prop == "margin" || prop == "padding" || prop == "border-width" then
      match splitWsStr value with
      | [a, b, c, d] => (prop, String.intercalate " " [a, d, c, b])
      | _ => (prop, valueSwapLR value)
    else if prop == "border-radius" then
      match splitWsStr value with
      | [a, b, c, d] => (prop, String.intercalate " " [b, a, d, c])
      | _ => (prop, valueSwapLR value)
    else if prop == "direction" then (prop, dirSwap value)
    else (prop, valueSwapLR value)
  else (nameSwapLR prop, value)

/-- Characters allowed in a CSS property name. -/
def isIdentChar (c : Char) : Bool :=
  (97 ≤ c.toNat && c.toNat ≤ 122) || (65 ≤ c.toNat && c.toNat ≤ 90) || c == '-'

/-- Recognize a `property : value ;` declaration at the head of the input;
returns the property, the whitespace around the colon, the value text and
the rest of the input after the semicolon. -/
def scanDecl (cs : List Char) :
    Option (List Char × List Char × List Char × List Char × List Char) :=
  let prop := cs.takeWhile isIdentChar
  if prop = [] then none
  else
    let r1 := cs.dropWhile isIdentChar
    let ws1 := r1.takeWhile isWsChar
    match r1.dropWhile isWsChar with
    | ':' :: r3 =>
      let ws2 := r3.takeWhile isWsChar
      let r4 := r3.dropWhile isWsChar
      let value := r4.takeWhile (fun c => !(c == ';' || c == '\x7b' || c == '\x7d'))
      if value = [] then none
      else
        match r4.dropWhile (fun c => !(c == ';' || c == '\x7b' || c == '\x7d')) with
        | ';' :: rest => some (prop, ws1, ws2, value, rest)
        | _ => none
    | _ => none

/-- Worker for the engine: walk the text, rewrite each declaration through
the rule table, copy every other byte unchanged. -/
def procGo : Nat → List Char → List Char
  | 0, cs => cs
  | _ + 1, [] => []
  | fuel + 1, c :: cs =>
    match scanDecl (c :: cs) with
    | some (prop, ws1, ws2, value, rest) =>
      if rest.length < cs.length + 1 then
        let pv := transformDecl ⟨prop⟩ ⟨value⟩
        pv.1.data ++ ws1 ++ ':' :: ws2 ++ pv.2.data ++ ';' :: procGo fuel rest
      else c :: procGo fuel cs
    | none => c :: procGo fuel cs

/-- Option values as they occur in the service's JavaScript: each carries
enough structure for the validator's type tests; objects and arrays carry
their JSON serialization (stable per JavaScript value). -/
inductive OptVal where
  | vBool (b : Bool)
  | vStr (s : String)
  | vNum (n : Int)
  | vNull
  | vArr (json : String)
  | vObj (json : String)
deriving DecidableEq, Repr

/-- Modelled from the spec: the rtlcss engine entry point
(`rtlcss.process`).  The options argument is accepted as the service passes
it; no claim exercises option-dependent engine behavior, so the modelled
rule subset above is applied unconditionally. -/
def rtlcssProcess (css : String) (_opts : List (String × OptVal)) : String :=
  ⟨procGo css.data.length css.data⟩

/-! ## Application errors (src/utils/errors.js) -/

/-- `AppError`: message, HTTP status code, machine error code; all errors
built by the factories are operational. -/
structure AppErr where
  message : String
  statusCode : Nat
  errorCode : String
deriving DecidableEq, Repr

/-- The `validationError` factory (422). -/
def validationError (message errorCode : String) : AppErr := ⟨message, 422, errorCode⟩

/-- The `internal` factory (500). -/
def internalErr (message errorCode : String) : AppErr := ⟨message, 500, errorCode⟩

/-- The error thrown by both conversion entry points on invalid CSS input. -/
def errInvalidCss : AppErr := validationError "No valid CSS content provided" "INVALID_CSS"

/-- The wrapper for non-operational transform failures in `ltrToRtl`. -/
def errConversion : AppErr := internalErr "Error processing CSS conversion" "CONVERSION_ERROR"

/-! ## Options (config/default.js and the option merge) -/

/-- First binding of a key in an association list (JavaScript object keys
are unique, so this is plain member access). -/
def alistFind (l : List (String × OptVal)) (k : String) : Option OptVal :=
  match l with
  | [] => none
  | (k0, v0) :: rest => if k0 = k then some v0 else alistFind rest k

/-- `config.get('rtlcss.defaultOptions')`, in the object's key order. -/
def defaultOptions : List (String × OptVal) :=
  [("autoRename", .vBool false),
   ("autoRenameStrict", .vBool false),
   ("blacklist", .vObj "\x7b\x7d"),
   ("clean", .vBool true),
   ("greedy", .vBool false),
   ("processUrls", .vBool false),
   ("stringMap", .vArr "[]"),
   ("useCalc", .vBool false)]

/-- The spread merge `\x7b ...defaults, ...rtlcssOptions \x7d`: keys of the
defaults keep their position (overridden where the user object has them),
user keys outside the defaults follow in the user object's order. -/
def mergeOptions (user : List (String × OptVal)) : List (String × OptVal) :=
  defaultOptions.map (fun p => (p.1, (alistFind user p.1).getD p.2)) ++
  user.filter (fun p => (alistFind defaultOptions p.1).isNone)

/-! ## JSON serialization and the cache key (CacheService.generateKey) -/

/-- JSON string escaping for the characters that matter here. -/
def jsonEscape (c : Char) : List Char :=
  if c = '"' then ['\\', '"']
  else if c = '\\' then ['\\', '\\']
  else if c = '\n' then ['\\', 'n']
  else [c]

def jsonQuote (s : String) : String :=
  ⟨'"' :: (s.data.map jsonEscape).flatten ++ ['"']⟩

/-- `JSON.stringify` of one option value (objects and arrays carry their
serialization). -/
def OptVal.stringify : OptVal → String
  | .vBool true => "true"
  | .vBool false => "false"
  | .vStr s => jsonQuote s
  | .vNum n => toString n
  | .vNull => "null"
  | .vArr json => json
  | .vObj json => json

/-- `JSON.stringify` of an options object, in its key order. -/
def stringifyOptions (opts : List (String × OptVal)) : String :=
  "\x7b" ++ String.intercalate "," (opts.map (fun p => jsonQuote p.1 ++ ":" ++ p.2.stringify)) ++ "\x7d"

/-- `JSON.stringify(\x7b css, options \x7d)`: the object the conversion
service hashes for its cache key. -/
def stringifyCacheData (css : String) (opts : List (String × OptVal)) : String :=
  "\x7b\"css\":" ++ jsonQuote css ++ ",\"options\":" ++ stringifyOptions opts ++ "\x7d"

/-- The argument of `generateKey`: a plain string, or an object already
serialized by `JSON.stringify` (the only object the service passes is
`\x7b css, options \x7d`). -/
inductive KeyData where
  | strData (s : String)
  | objData (json : String)
deriving DecidableEq, Repr

/-- Modelled from the spec: stand-in for the Node `crypto` md5 hex digest —
a deterministic digest of the input string (only determinism is relied
upon by any claim). -/
def md5Hex (s : String) : String :=
  toString (s.data.foldl (fun a c => (a * 131 + c.toNat) % 1000000007) 7)

/-- `CacheService.generateKey`: strings are used directly under the
namespace, objects are stringified and hashed. -/
def generateKey (pre : String) (data : KeyData) : String :=
  match data with
  | .strData s => pre ++ ":" ++ s
  | .objData json => pre ++ ":" ++ md5Hex json

/-- The cache key computed by `ltrToRtl` for a css text and the caller's
(unmerged) rtlcss options. -/
def ltrKeyOf (css : String) (user : List (String × OptVal)) : String :=
  generateKey "ltr2rtl" (.objData (stringifyCacheData css (mergeOptions user)))

/-! ## The conversion cache (src/services/cache.js) -/

/-- One conversion result as returned by `ltrToRtl`: the converted text and
its stats object (`cached` is stored as `false` on computation). -/
structure ConvStats where
  originalSize : Nat
  convertedSize : Nat
  processingTimeMs : Nat
  cached : Bool
deriving DecidableEq, Repr

structure ConvResult where
  converted : String
  stats : ConvStats
deriving DecidableEq, Repr

/-- A stored cache entry: the value and its absolute expiry time. -/
structure CacheItem where
  value : ConvResult
  expiresAt : Nat
deriving DecidableEq, Repr

/-- The `CacheService` state: the insertion-ordered key→entry map and the
hit/miss/stored/evicted counters. -/
structure CacheState where
  entries : List (String × CacheItem)
  hits : Nat
  misses : Nat
  stored : Nat
  evicted : Nat
deriving DecidableEq, Repr

/-- The state of a freshly constructed `CacheService`. -/
def emptyCache : CacheState := ⟨[], 0, 0, 0, 0⟩

/-- `this.maxSize = 1000`. -/
def maxSize : Nat := 1000

/-- `this.defaultTtl`: one hour in milliseconds. -/
def defaultTtl : Nat := 3600000

/-- `Map.prototype.get` on the entry map. -/
def lookupEntry (l : List (String × CacheItem)) (k : String) : Option CacheItem :=
  match l with
  | [] => none
  | (k0, v0) :: rest => if k0 = k then some v0 else lookupEntry rest k

/-- `Map.prototype.delete`: remove the (unique) entry with the given key. -/
def eraseKey (l : List (String × CacheItem)) (k : String) : List (String × CacheItem) :=
  match l with
  | [] => []
  | (k0, v0) :: rest => if k0 = k then rest else (k0, v0) :: eraseKey rest k

/-- `Map.prototype.set`: overwrite in place, or append a new entry. -/
def setEntry (l : List (String × CacheItem)) (k : String) (it : CacheItem) :
    List (String × CacheItem) :=
  match l with
  | [] => [(k, it)]
  | (k0, v0) :: rest => if k0 = k then (k, it) :: rest else (k0, v0) :: setEntry rest k it

/-- The loop of `evictOldest`: track the entry with the strictly smallest
`expiresAt` seen so far (ties keep the earlier entry, `Infinity` start). -/
def chooseMin (acc : Option (String × CacheItem)) :
    List (String × CacheItem) → Option (String × CacheItem)
  | [] => acc
  | p :: rest =>
    chooseMin
      (match acc with
       | none => some p
       | some q => if p.2.expiresAt < q.2.expiresAt then some p else some q)
      rest

/-- `CacheService.evictOldest`: delete the entry with the earliest expiry
(and count an eviction) when the cache is nonempty. -/
def evictOldest (st : CacheState) : CacheState :=
  match chooseMin none st.entries with
  | none => st
  | some p => { st with entries := eraseKey st.entries p.1, evicted := st.evicted + 1 }

/-- `CacheService.set`: evict first when at capacity, then store the value
with expiry `now + ttl` and count it as stored. -/
def cacheSet (st : CacheState) (k : String) (v : ConvResult) (now ttl : Nat) : CacheState :=
  let st1 := if maxSize ≤ st.entries.length then evictOldest st else st
  { st1 with
    entries := setEntry st1.entries k ⟨v, now + ttl⟩,
    stored := st1.stored + 1 }

/-- `CacheService.get`: a missing key is a miss; an expired entry is
deleted and reported as a miss (counted as evicted); otherwise a hit
returning the stored value. -/
def cacheGet (st : CacheState) (now : Nat) (k : String) : Option ConvResult × CacheState :=
  match lookupEntry st.entries k with
  | none => (none, { st with misses := st.misses + 1 })
  | some item =>
    if item.expiresAt < now then
      (none, { st with
                entries := eraseKey st.entries k,
                misses := st.misses + 1,
                evicted := st.evicted + 1 })
    else (some item.value, { st with hits := st.hits + 1 })

/-- `CacheService.runGarbageCollection`: sweep every entry past its expiry,
counting each removal as an eviction. -/
def runGarbageCollection (st : CacheState) (now : Nat) : CacheState :=
  { st with
    entries := st.entries.filter (fun p => !(p.2.expiresAt < now)),
    evicted := st.evicted + (st.entries.filter (fun p => p.2.expiresAt < now)).length }

/-! ## Option validation (src/services/validator.js, validateRtlcssOptions) -/

/-- The argument of `validateRtlcssOptions`: a plain object with its fields,
or any non-object / falsy value. -/
inductive JsOptions where
  | notObject
  | objOpts (fields : List (String × OptVal))
deriving DecidableEq, Repr

def allowedOptions : List String :=
  ["autoRename", "autoRenameStrict", "blacklist", "clean", "greedy",
   "processUrls", "stringMap", "useCalc"]

def boolOptions : List String :=
  ["autoRename", "autoRenameStrict", "clean", "greedy", "processUrls", "useCalc"]

/-- JavaScript truthiness of an option value. -/
def OptVal.truthy : OptVal → Bool
  | .vBool b => b
  | .vStr s => s ≠ ""
  | .vNum n => n ≠ 0
  | .vNull => false
  | .vArr _ => true
  | .vObj _ => true

/-- `typeof v === 'object'` (true for plain objects, arrays and null). -/
def OptVal.typeofObject : OptVal → Bool
  | .vNull => true
  | .vArr _ => true
  | .vObj _ => true
  | _ => false

def OptVal.isArrayVal : OptVal → Bool
  | .vArr _ => true
  | _ => false

/-- One step of the boolean-option loop of `validateRtlcssOptions`. -/
def checkBoolOption (fields : List (String × OptVal)) (acc : List (String × OptVal))
    (k : String) : Except AppErr (List (String × OptVal)) :=
  match alistFind fields k with
  | none => .ok acc
  | some (.vBool b) => .ok (acc ++ [(k, .vBool b)])
  | some _ =>
    .error (validationError ("Option \x27" ++ k ++ "\x27 must be a boolean") "INVALID_OPTION_TYPE")

/-- `validateRtlcssOptions`: non-objects validate to the empty option set;
an unknown key is rejected naming every unknown key; then the boolean
options, the `blacklist` object and the `stringMap` array are type-checked
and collected in that order. -/
def validateRtlcssOptions (options : JsOptions) : Except AppErr (List (String × OptVal)) :=
  match options with
  | .notObject => .ok []
  | .objOpts fields =>
    let invalid := (fields.map Prod.fst).filter (fun k => !(allowedOptions.contains k))
    if 0 < invalid.length then
      .error (validationError ("Invalid RTLCSS options: " ++ String.intercalate ", " invalid)
        "INVALID_OPTIONS")
    else do
      let base ← boolOptions.foldlM (checkBoolOption fields) []
      let withBlack ←
        match alistFind fields "blacklist" with
        | none => .ok base
        | some v =>
          if !v.truthy || !v.typeofObject then
            .error (validationError "Option \x27blacklist\x27 must be an object" "INVALID_OPTION_TYPE")
          else .ok (base ++ [("blacklist", v)])
      match alistFind fields "stringMap" with
      | none => .ok withBlack
      | some v =>
        if !v.isArrayVal then
          .error (validationError "Option \x27stringMap\x27 must be an array" "INVALID_OPTION_TYPE")
        else .ok (withBlack ++ [("stringMap", v)])

/-! ## The conversion entry points (src/services, conversion service)

The wall-clock time measured by `process.hrtime` around the call is an
ambient quantity; it enters the model as the `elapsed` parameter (already
rounded to whole milliseconds).  `Date.now()` at the call likewise enters
as `now`.  The css argument is a JavaScript value: a string or anything
else; the file-path branch (blocking I/O, no direct css) is outside the
model.  Usage-stats recording and monitoring are external fire-and-forget
collaborators and do not affect the result or the cache. -/

/-- The `css` argument as passed by a caller. -/
inductive CssInput where
  | jsStr (s : String)
  | nonString
deriving DecidableEq, Repr

/-- The validation test `!css || typeof css !== 'string'` (negated). -/
def validCssInput : CssInput → Bool
  | .jsStr s => s != ""
  | .nonString => false

/-- The result shape of `rtlToLtr` (its stats carry no `cached` flag). -/
structure RtlResult where
  converted : String
  originalSize : Nat
  convertedSize : Nat
  processingTimeMs : Nat
deriving DecidableEq, Repr

/-- `ltrToRtl`, generic in the transform step so that transform failures
can be analyzed: validate the input, merge the options, look the
fingerprint up in the cache and return a hit as-is; on a miss run the
transform, build the result, store it, and return it.  A transform error
is wrapped as an internal CONVERSION_ERROR and nothing is stored. -/
def ltrToRtlWith (proc : String → List (String × OptVal) → Except String String)
    (st : CacheState) (now elapsed : Nat) (css : CssInput)
    (rtlcssOptions : List (String × OptVal)) : Except AppErr ConvResult × CacheState :=
  match css with
  | .nonString => (.error errInvalidCss, st)
  | .jsStr s =>
    if s = "" then (.error errInvalidCss, st)
    else
      let options := mergeOptions rtlcssOptions
      let cacheKey := generateKey "ltr2rtl" (.objData (stringifyCacheData s options))
      match cacheGet st now cacheKey with
      | (some cached, st1) => (.ok cached, st1)
      | (none, st1) =>
        let originalSize := s.utf8ByteSize
        match proc s options with
        | .error _ => (.error errConversion, st1)
        | .ok convertedCss =>
          let result : ConvResult :=
            ⟨convertedCss, ⟨originalSize, convertedCss.utf8ByteSize, elapsed, false⟩⟩
          (.ok result, cacheSet st1 cacheKey result now defaultTtl)

/-- The deployed `ltrToRtl`: the transform step is the rtlcss engine. -/
def ltrToRtl (st : CacheState) (now elapsed : Nat) (css : CssInput)
    (rtlcssOptions : List (String × OptVal)) : Except AppErr ConvResult × CacheState :=
  ltrToRtlWith (fun c o => .ok (rtlcssProcess c o)) st now elapsed css rtlcssOptions

/-- `rtlToLtr`: validate the input, run the fifteen-step preprocessing that
swaps directional text, merge the options, and apply the rtlcss engine to
the preprocessed text.  The function body contains no reference to the
cache service. -/
def rtlToLtr (elapsed : Nat) (css : CssInput)
    (rtlcssOptions : List (String × OptVal)) : Except AppErr RtlResult :=
  match css with
  | .nonString => .error errInvalidCss
  | .jsStr s =>
    if s = "" then .error errInvalidCss
    else
      let preprocessedCss := preprocess s
      let options := mergeOptions rtlcssOptions
      let originalSize := s.utf8ByteSize
      let convertedCss := rtlcssProcess preprocessedCss options
      .ok ⟨convertedCss, originalSize, convertedCss.utf8ByteSize, elapsed⟩

/-- `rtlToLtr` seen as an operation on the shared service state: the body
never mentions the cache, so the state passes through untouched. -/
def rtlToLtrCall (st : CacheState) (elapsed : Nat) (css : CssInput)
    (rtlcssOptions : List (String × OptVal)) : Except AppErr RtlResult × CacheState :=
  (rtlToLtr elapsed css rtlcssOptions, st)

/-- A `CacheService.set` call with its arguments, for reasoning about
sequences of insertions. -/
structure SetOp where
  key : String
  val : ConvResult
  now : Nat
  ttl : Nat
deriving DecidableEq, Repr

/-- Apply a sequence of `set` calls to the cache. -/
def applySets (st : CacheState) (ops : List SetOp) : CacheState :=
  ops.foldl (fun s o => cacheSet s o.key o.val o.now o.ttl) st

/-! ## Helper lemmas about the entry map -/

theorem lookupEntry_setEntry_self (l : List (String × CacheItem)) (k : String) (it : CacheItem) :
    lookupEntry (setEntry l k it) k = some it := by
  induction l with
  | nil => simp [setEntry, lookupEntry]
  | cons p rest ih =>
    by_cases h : p.1 = k
    · simp [setEntry, lookupEntry, h]
    · simpa [setEntry, lookupEntry, h] using ih

theorem lookupEntry_isSome_of_mem {l : List (String × CacheItem)} {k : String} {it : CacheItem}
    (h : (k, it) ∈ l) : (lookupEntry l k).isSome := by
  induction l with
  | nil => simp at h
  | cons p rest ih =>
    rcases List.mem_cons.mp h with h1 | h1
    · simp [lookupEntry, ← h1]
    · by_cases hk : p.1 = k
      · simp [lookupEntry, hk]
      · simpa [lookupEntry, hk] using ih h1

theorem length_eraseKey_of_lookup {l : List (String × CacheItem)} {k : String}
    (h : (lookupEntry l k).isSome) : (eraseKey l k).length + 1 = l.length := by
  induction l with
  | nil => simp [lookupEntry] at h
  | cons p rest ih =>
    by_cases hk : p.1 = k
    · simp [eraseKey, hk]
    · have h2 : (lookupEntry rest k).isSome := by simpa [lookupEntry, hk] using h
      simpa [eraseKey, hk] using ih h2

theorem length_setEntry_le (l : List (String × CacheItem)) (k : String) (it : CacheItem) :
    (setEntry l k it).length ≤ l.length + 1 := by
  induction l with
  | nil => simp [setEntry]
  | cons p rest ih =>
    obtain ⟨k0, v0⟩ := p
    by_cases hk : k0 = k
    · simp [setEntry, hk]
    · simp only [setEntry, if_neg hk, List.length_cons]
      omega

theorem mem_of_mem_eraseKey {l : List (String × CacheItem)} {k : String}
    {p : String × CacheItem} (h : p ∈ eraseKey l k) : p ∈ l := by
  induction l with
  | nil => simp [eraseKey] at h
  | cons q rest ih =>
    obtain ⟨k0, v0⟩ := q
    by_cases hk : k0 = k
    · simp only [eraseKey, if_pos hk] at h
      exact List.mem_cons_of_mem _ h
    · simp only [eraseKey, if_neg hk, List.mem_cons] at h
      rcases h with h | h
      · exact h ▸ List.mem_cons_self _ _
      · exact List.mem_cons_of_mem _ (ih h)

/-! ## Helper lemmas about the eviction loop -/

theorem chooseMin_cons (q p : String × CacheItem) (rest : List (String × CacheItem)) :
    chooseMin (some q) (p :: rest) =
      chooseMin (some (if p.2.expiresAt < q.2.expiresAt then p else q)) rest := by
  by_cases hc : p.2.expiresAt < q.2.expiresAt
  · simp [chooseMin, hc]
  · simp [chooseMin, hc]

theorem chooseMin_some_isSome (es : List (String × CacheItem)) :
    ∀ q : String × CacheItem, ∃ r, chooseMin (some q) es = some r := by
  induction es with
  | nil => intro q; exact ⟨q, rfl⟩
  | cons p rest ih =>
    intro q
    rw [chooseMin_cons]
    exact ih _

theorem chooseMin_spec (es : List (String × CacheItem)) :
    ∀ q r : String × CacheItem, chooseMin (some q) es = some r →
      (r = q ∨ r ∈ es) ∧ r.2.expiresAt ≤ q.2.expiresAt ∧
        ∀ p ∈ es, r.2.expiresAt ≤ p.2.expiresAt := by
  induction es with
  | nil =>
    intro q r h
    have hqr : q = r := by simpa [chooseMin] using h
    subst hqr
    exact ⟨Or.inl rfl, Nat.le_refl _, by simp⟩
  | cons p rest ih =>
    intro q r h
    rw [chooseMin_cons] at h
    by_cases hpq : p.2.expiresAt < q.2.expiresAt
    · rw [if_pos hpq] at h
      obtain ⟨hm, hle, hall⟩ := ih p r h
      refine ⟨?_, Nat.le_trans hle (Nat.le_of_lt hpq), ?_⟩
      · rcases hm with h1 | h1
        · exact Or.inr (h1 ▸ List.mem_cons_self _ _)
        · exact Or.inr (List.mem_cons_of_mem _ h1)
      · intro p2 hp2
        rcases List.mem_cons.mp hp2 with h2 | h2
        · exact h2 ▸ hle
        · exact hall p2 h2
    · rw [if_neg hpq] at h
      obtain ⟨hm, hle, hall⟩ := ih q r h
      refine ⟨?_, hle, ?_⟩
      · rcases hm with h1 | h1
        · exact Or.inl h1
        · exact Or.inr (List.mem_cons_of_mem _ h1)
      · intro p2 hp2
        rcases List.mem_cons.mp hp2 with h2 | h2
        · exact h2 ▸ Nat.le_trans hle (Nat.le_of_not_lt hpq)
        · exact hall p2 h2

theorem chooseMin_of_ne_nil {es : List (String × CacheItem)} (h : es ≠ []) :
    ∃ r, chooseMin none es = some r ∧ r ∈ es ∧
      ∀ p ∈ es, r.2.expiresAt ≤ p.2.expiresAt := by
  match es, h with
  | p :: rest, _ =>
    obtain ⟨r, hr⟩ := chooseMin_some_isSome rest p
    obtain ⟨hm, hle, hall⟩ := chooseMin_spec rest p r hr
    have hstep : chooseMin none (p :: rest) = chooseMin (some p) rest := by
      simp [chooseMin]
    refine ⟨r, hstep ▸ hr, ?_, ?_⟩
    · rcases hm with h1 | h1
      · exact h1 ▸ List.mem_cons_self _ _
      · exact List.mem_cons_of_mem _ h1
    · intro p2 hp2
      rcases List.mem_cons.mp hp2 with h2 | h2
      · exact h2 ▸ hle
      · exact hall p2 h2

/-! ## Helper lemmas about `cacheSet` and `cacheGet` -/

theorem cacheSet_entries_of_full {st : CacheState} (k : String) (v : ConvResult) (now ttl : Nat)
    {r : String × CacheItem} (hfull : maxSize ≤ st.entries.length)
    (hr : chooseMin none st.entries = some r) :
    (cacheSet st k v now ttl).entries = setEntry (eraseKey st.entries r.1) k ⟨v, now + ttl⟩ ∧
    (cacheSet st k v now ttl).evicted = st.evicted + 1 := by
  unfold cacheSet evictOldest
  rw [if_pos hfull]
  simp [hr]

theorem cacheSet_entries_of_not_full {st : CacheState} (k : String) (v : ConvResult) (now ttl : Nat)
    (hfull : ¬ maxSize ≤ st.entries.length) :
    (cacheSet st k v now ttl).entries = setEntry st.entries k ⟨v, now + ttl⟩ := by
  unfold cacheSet
  rw [if_neg hfull]

theorem cacheSet_length_le {st : CacheState} (k : String) (v : ConvResult) (now ttl : Nat)
    (hst : st.entries.length ≤ maxSize) :
    (cacheSet st k v now ttl).entries.length ≤ maxSize := by
  by_cases hfull : maxSize ≤ st.entries.length
  · have hne : st.entries ≠ [] := by
      intro hnil
      rw [hnil] at hfull
      simp [maxSize] at hfull
    obtain ⟨r, hr, hmem, _⟩ := chooseMin_of_ne_nil hne
    have hlk : (lookupEntry st.entries r.1).isSome := lookupEntry_isSome_of_mem (by simpa using hmem)
    have hlen := length_eraseKey_of_lookup hlk
    have hset := length_setEntry_le (eraseKey st.entries r.1) k ⟨v, now + ttl⟩
    rw [(cacheSet_entries_of_full k v now ttl hfull hr).1]
    omega
  · have hset := length_setEntry_le st.entries k ⟨v, now + ttl⟩
    rw [cacheSet_entries_of_not_full k v now ttl hfull]
    omega

theorem applySets_length_le {st : CacheState} (ops : List SetOp)
    (hst : st.entries.length ≤ maxSize) :
    (applySets st ops).entries.length ≤ maxSize := by
  induction ops generalizing st with
  | nil => simpa [applySets] using hst
  | cons o rest ih =>
    have h1 := cacheSet_length_le o.key o.val o.now o.ttl hst
    simpa [applySets] using ih h1

theorem cacheGet_stored_eq (st : CacheState) (now : Nat) (k : String) :
    (cacheGet st now k).2.stored = st.stored := by
  unfold cacheGet
  cases h : lookupEntry st.entries k with
  | none => rfl
  | some item =>
    by_cases he : item.expiresAt < now
    · simp [he]
    · simp [he]

theorem cacheGet_hits_of_none {st : CacheState} {now : Nat} {k : String}
    (h : (cacheGet st now k).1 = none) : (cacheGet st now k).2.hits = st.hits := by
  unfold cacheGet at *
  cases hl : lookupEntry st.entries k with
  | none => rfl
  | some item =>
    by_cases he : item.expiresAt < now
    · simp [hl, he]
    · simp [hl, he] at h

theorem cacheGet_entries_subset {st : CacheState} {now : Nat} {k : String}
    {p : String × CacheItem} (h : p ∈ (cacheGet st now k).2.entries) : p ∈ st.entries := by
  unfold cacheGet at h
  cases hl : lookupEntry st.entries k with
  | none => simp only [hl] at h; exact h
  | some item =>
    simp only [hl] at h
    by_cases he : item.expiresAt < now
    · rw [if_pos he] at h
      exact mem_of_mem_eraseKey h
    · rw [if_neg he] at h
      exact h

/-! ## Reduction lemmas for the conversion entry points -/

/-- The result built by `ltrToRtl` when it has to compute (cache miss). -/
def freshResult (s : String) (user : List (String × OptVal)) (elapsed : Nat) : ConvResult :=
  ⟨rtlcssProcess s (mergeOptions user),
   ⟨s.utf8ByteSize, (rtlcssProcess s (mergeOptions user)).utf8ByteSize, elapsed, false⟩⟩

theorem ltrToRtl_miss {st : CacheState} {s : String} {user : List (String × OptVal)}
    (now elapsed : Nat) (hs : s ≠ "")
    (hmiss : lookupEntry st.entries (ltrKeyOf s user) = none) :
    ltrToRtl st now elapsed (.jsStr s) user =
      (.ok (freshResult s user elapsed),
       cacheSet { st with misses := st.misses + 1 } (ltrKeyOf s user)
         (freshResult s user elapsed) now defaultTtl) := by
  simp only [ltrToRtl, ltrToRtlWith]
  rw [if_neg hs]
  have hget : cacheGet st now (ltrKeyOf s user) = (none, { st with misses := st.misses + 1 }) := by
    unfold cacheGet
    rw [hmiss]
  simp only [ltrKeyOf] at hget
  simp [hget, freshResult, ltrKeyOf]

theorem ltrToRtl_hit {st : CacheState} {s : String} {user : List (String × OptVal)}
    {it : CacheItem} (now elapsed : Nat) (hs : s ≠ "")
    (hlk : lookupEntry st.entries (ltrKeyOf s user) = some it)
    (hfresh : ¬ it.expiresAt < now) :
    ltrToRtl st now elapsed (.jsStr s) user =
      (.ok it.value, { st with hits := st.hits + 1 }) := by
  simp only [ltrToRtl, ltrToRtlWith]
  rw [if_neg hs]
  have hget : cacheGet st now (ltrKeyOf s user) = (some it.value, { st with hits := st.hits + 1 }) := by
    unfold cacheGet
    simp only [hlk]
    rw [if_neg hfresh]
  simp only [ltrKeyOf] at hget
  simp [hget]

/-! ## Claim theorems -/

def cssMarginLeft : String := ".test \x7b margin-left: 10px; \x7d"

def cssMarginRight : String := ".test \x7b margin-right: 10px; \x7d"

/-- C1.  The round-trip property fails on the code: converting
`.test \x7b margin-left: 10px; \x7d` LTR→RTL yields the `margin-right`
form, but feeding that to `rtlToLtr` returns it unchanged — the RTL→LTR
preprocessing has already swapped `margin-right` to `margin-left`, and the
engine swaps it back, so the double swap is the identity and
`rtlToLtr (ltrToRtl c) ≠ c` (the two texts differ in a property name, not
in whitespace). -/
theorem round_trip_fails_on_margin :
    (ltrToRtl emptyCache 0 5 (.jsStr cssMarginLeft) []).1.toOption.map (fun r => r.converted)
      = some cssMarginRight ∧
    (rtlToLtr 3 (.jsStr cssMarginRight) []).toOption.map (fun r => r.converted)
      = some cssMarginRight ∧
    cssMarginRight ≠ cssMarginLeft := by
  refine ⟨by decide, by decide, by decide⟩

/-- C3.  `rtlToLtr` never touches the conversion cache: as an operation on
the shared service state it returns the state it was given (entries and
every counter), its result does not depend on that state, and a second
identical call recomputes the same result through the full pipeline. -/
theorem rtlToLtr_cache_frame (st : CacheState) (elapsed : Nat) (css : CssInput)
    (user : List (String × OptVal)) :
    (rtlToLtrCall st elapsed css user).2 = st ∧
    (rtlToLtrCall st elapsed css user).1 = rtlToLtr elapsed css user ∧
    (rtlToLtrCall ((rtlToLtrCall st elapsed css user).2) elapsed css user).1
      = (rtlToLtrCall st elapsed css user).1 :=
  ⟨rfl, rfl, rfl⟩

/-- C7.  Both conversion entry points reject an input that is not a
non-empty string with the INVALID_CSS validation error (a 422), and
`ltrToRtl` does so with the cache state — entries and all counters —
exactly as it was: the rejection happens before any cache access or
transformation. -/
theorem conversion_rejects_invalid_input (st : CacheState) (now elapsed : Nat)
    (css : CssInput) (user : List (String × OptVal))
    (h : validCssInput css = false) :
    ltrToRtl st now elapsed css user = (.error errInvalidCss, st) ∧
    rtlToLtr elapsed css user = .error errInvalidCss ∧
    errInvalidCss.statusCode = 422 ∧ errInvalidCss.errorCode = "INVALID_CSS" := by
  cases css with
  | nonString => exact ⟨rfl, rfl, rfl, rfl⟩
  | jsStr s =>
    have hs : s = "" := by
      simpa [validCssInput] using h
    subst hs
    exact ⟨rfl, rfl, rfl, rfl⟩

/-- C7 witness: the empty string is rejected by both entry points with the
cache untouched. -/
theorem conversion_rejects_invalid_input_witness :
    ltrToRtl emptyCache 0 3 (.jsStr "") [] = (.error errInvalidCss, emptyCache) ∧
    rtlToLtr 3 (.jsStr "") [] = .error errInvalidCss ∧
    errInvalidCss.statusCode = 422 ∧ errInvalidCss.errorCode = "INVALID_CSS" :=
  conversion_rejects_invalid_input emptyCache 0 3 (.jsStr "") [] rfl

/-- C9 (amended).  `validateRtlcssOptions` rejects any options object that
contains a key outside the allowed set, raising the INVALID_OPTIONS
validation error whose message names exactly the unknown keys. -/
theorem unknown_options_rejected (fields : List (String × OptVal))
    (h : (fields.map Prod.fst).filter (fun k => !(allowedOptions.contains k)) ≠ []) :
    validateRtlcssOptions (.objOpts fields) =
      .error (validationError
        ("Invalid RTLCSS options: " ++ String.intercalate ", "
          ((fields.map Prod.fst).filter (fun k => !(allowedOptions.contains k))))
        "INVALID_OPTIONS") := by
  simp only [validateRtlcssOptions]
  rw [if_pos (List.length_pos.mpr h)]

/-- C9 witness: an object with the unknown keys `foo` and `bar` is rejected
with a message naming both. -/
theorem unknown_options_rejected_witness :
    validateRtlcssOptions (.objOpts [("foo", .vBool true), ("clean", .vBool true), ("bar", .vNum 3)]) =
      .error (validationError
        ("Invalid RTLCSS options: " ++ String.intercalate ", "
          (([("foo", OptVal.vBool true), ("clean", OptVal.vBool true), ("bar", OptVal.vNum 3)].map Prod.fst).filter
            (fun k => !(allowedOptions.contains k))))
        "INVALID_OPTIONS") :=
  unknown_options_rejected [("foo", .vBool true), ("clean", .vBool true), ("bar", .vNum 3)] (by decide)

/-- C9 counterexample: the conversion entry point, called directly, does
not reject an unrecognized option — `ltrToRtl` with the unknown key `foo`
succeeds (the key is merged and forwarded), even though the validator
rejects the same object. -/
theorem engine_accepts_unknown_option :
    (ltrToRtl emptyCache 0 2 (.jsStr cssMarginLeft) [("foo", .vBool true)]).1.isOk = true ∧
    (validateRtlcssOptions (.objOpts [("foo", .vBool true)])).isOk = false := by
  refine ⟨by decide, by decide⟩

def cssMarginShorthand : String := "margin: 10px 20px 30px 40px;"

def cssMarginShorthandMirror : String := "margin: 10px 40px 30px 20px;"

/-- C10.  The shorthand box rule reorders four space-separated components
`(top, right, bottom, left)` to `(top, left, bottom, right)` for any
`margin` declaration, and in particular `ltrToRtl` converts
`margin: 10px 20px 30px 40px;` to `margin: 10px 40px 30px 20px;`. -/
theorem shorthand_box_reorder (v a b c d : String)
    (h : splitWsStr v = [a, b, c, d]) :
    transformDecl "margin" v = ("margin", String.intercalate " " [a, d, c, b]) ∧
    (ltrToRtl emptyCache 0 4 (.jsStr cssMarginShorthand) []).1.toOption.map (fun r => r.converted)
      = some cssMarginShorthandMirror := by
  constructor
  · unfold transformDecl
    rw [if_pos (show nameSwapLR "margin" = "margin" by decide)]
    rw [if_pos (show ("margin" == "margin" || "margin" == "padding" || "margin" == "border-width") = true by decide)]
    rw [h]
  · decide

/-- C10 witness: the reorder at the declaration level on the concrete
components 10px/20px/30px/40px. -/
theorem shorthand_box_reorder_witness :
    transformDecl "margin" "10px 20px 30px 40px"
      = ("margin", String.intercalate " " ["10px", "40px", "30px", "20px"]) ∧
    (ltrToRtl emptyCache 0 4 (.jsStr cssMarginShorthand) []).1.toOption.map (fun r => r.converted)
      = some cssMarginShorthandMirror :=
  shorthand_box_reorder "10px 20px 30px 40px" "10px" "20px" "30px" "40px" (by decide)

theorem lookupEntry_cacheSet_self (st : CacheState) (k : String) (v : ConvResult) (now ttl : Nat) :
    lookupEntry (cacheSet st k v now ttl).entries k = some ⟨v, now + ttl⟩ :=
  lookupEntry_setEntry_self _ k _

/-- C2 (amended).  When a second `ltrToRtl` call with the same css and
options hits the unexpired cache entry written by the first, it returns
the first call's result object unchanged — equal `converted` text, equal
`originalSize` and `convertedSize` — and the hit counter increases by
exactly one while the other counters and the entries are untouched; the
returned `processingTimeMs`, however, is the first call's measured time,
not 0 (the `0` of the source is only passed to the usage-stats recorder,
never written into the returned result). -/
theorem cache_hit_returns_first_result (st : CacheState) (now1 now2 e1 e2 : Nat)
    (s : String) (user : List (String × OptVal))
    (hs : s ≠ "")
    (hmiss : lookupEntry st.entries (ltrKeyOf s user) = none)
    (hfresh : now2 ≤ now1 + defaultTtl) :
    ∃ r1 st1 r2 st2,
      ltrToRtl st now1 e1 (.jsStr s) user = (.ok r1, st1) ∧
      ltrToRtl st1 now2 e2 (.jsStr s) user = (.ok r2, st2) ∧
      r2 = r1 ∧
      r2.converted = r1.converted ∧
      r2.stats.originalSize = r1.stats.originalSize ∧
      r2.stats.convertedSize = r1.stats.convertedSize ∧
      r2.stats.processingTimeMs = e1 ∧
      st2.hits = st1.hits + 1 ∧
      st2.misses = st1.misses ∧ st2.stored = st1.stored ∧
      st2.evicted = st1.evicted ∧ st2.entries = st1.entries := by
  have h1 := ltrToRtl_miss now1 e1 hs hmiss
  have hlk : lookupEntry
      (cacheSet { st with misses := st.misses + 1 } (ltrKeyOf s user)
        (freshResult s user e1) now1 defaultTtl).entries (ltrKeyOf s user)
      = some ⟨freshResult s user e1, now1 + defaultTtl⟩ :=
    lookupEntry_cacheSet_self _ _ _ _ _
  have hnotexp : ¬ (⟨freshResult s user e1, now1 + defaultTtl⟩ : CacheItem).expiresAt < now2 :=
    Nat.not_lt.mpr hfresh
  have h2 := ltrToRtl_hit now2 e2 hs hlk hnotexp
  exact ⟨freshResult s user e1, _, freshResult s user e1, _,
    h1, h2, rfl, rfl, rfl, rfl, rfl, rfl, rfl, rfl, rfl, rfl⟩

/-- C2 witness: starting from the empty cache, a first call at time 0 with
measured time 5 and a second identical call at time 1 with measured time 7
hit the cache and return the first result. -/
theorem cache_hit_returns_first_result_witness :
    ∃ r1 st1 r2 st2,
      ltrToRtl emptyCache 0 5 (.jsStr cssMarginLeft) [] = (.ok r1, st1) ∧
      ltrToRtl st1 1 7 (.jsStr cssMarginLeft) [] = (.ok r2, st2) ∧
      r2 = r1 ∧
      r2.converted = r1.converted ∧
      r2.stats.originalSize = r1.stats.originalSize ∧
      r2.stats.convertedSize = r1.stats.convertedSize ∧
      r2.stats.processingTimeMs = 5 ∧
      st2.hits = st1.hits + 1 ∧
      st2.misses = st1.misses ∧ st2.stored = st1.stored ∧
      st2.evicted = st1.evicted ∧ st2.entries = st1.entries :=
  cache_hit_returns_first_result emptyCache 0 1 5 7 cssMarginLeft []
    (by decide) rfl (by decide)

set_option maxRecDepth 100000 in
/-- C2 counterexample: the claim's `processingTimeMs = 0` is false — the
second, cache-hitting call returns the first call's measured 5
milliseconds, not 0. -/
theorem cache_hit_nonzero_processing_time :
    ((ltrToRtl (ltrToRtl emptyCache 0 5 (.jsStr cssMarginLeft) []).2
        1 7 (.jsStr cssMarginLeft) []).1.toOption.map (fun r => r.stats.processingTimeMs))
      = some 5 ∧
    ((ltrToRtl (ltrToRtl emptyCache 0 5 (.jsStr cssMarginLeft) []).2
        1 7 (.jsStr cssMarginLeft) []).1.toOption.map (fun r => r.stats.processingTimeMs))
      ≠ some 0 := by
  refine ⟨by decide, by decide⟩

/-- C4.  The cache fingerprint is a deterministic function of the merged
options: for a fixed css, two callers whose validated option sets agree as
key-value maps over the allowed option keys — each key read through its
default, so omitting an option and passing its default explicitly are the
same — produce the same cache key, whatever the order or presence of their
option keys. -/
theorem fingerprint_normalization (css : String) (u1 u2 : List (String × OptVal))
    (hk1 : ∀ p ∈ u1, p.1 ∈ allowedOptions)
    (hk2 : ∀ p ∈ u2, p.1 ∈ allowedOptions)
    (hv : ∀ k ∈ allowedOptions,
      (alistFind u1 k).getD ((alistFind defaultOptions k).getD .vNull)
        = (alistFind u2 k).getD ((alistFind defaultOptions k).getD .vNull)) :
    ltrKeyOf css u1 = ltrKeyOf css u2 := by
  have hd : ∀ u : List (String × OptVal), (∀ p ∈ u, p.1 ∈ allowedOptions) →
      u.filter (fun p => (alistFind defaultOptions p.1).isNone) = [] := by
    intro u hu
    rw [List.filter_eq_nil_iff]
    intro p hp
    have h1 : p.1 ∈ allowedOptions := hu p hp
    have hall : ∀ k ∈ allowedOptions, (alistFind defaultOptions k).isSome := by decide
    obtain ⟨w, hw⟩ := Option.isSome_iff_exists.mp (hall p.1 h1)
    simp [hw]
  have hmerge : mergeOptions u1 = mergeOptions u2 := by
    unfold mergeOptions
    rw [hd u1 hk1, hd u2 hk2]
    simp only [List.append_nil]
    apply List.map_congr_left
    intro p hp
    have h1 : p.1 ∈ allowedOptions := by
      have hs : ∀ q ∈ defaultOptions, q.1 ∈ allowedOptions := by decide
      exact hs p hp
    have h2 : alistFind defaultOptions p.1 = some p.2 := by
      have hs : ∀ q ∈ defaultOptions, alistFind defaultOptions q.1 = some q.2 := by decide
      exact hs p hp
    have h3 := hv p.1 h1
    rw [h2] at h3
    simp only [Option.getD_some] at h3
    rw [h3]
  simp only [ltrKeyOf, generateKey]
  rw [hmerge]

/-- C4 witness: omitting every option and passing the default
`clean: true` explicitly produce the same cache key. -/
theorem fingerprint_normalization_witness :
    ltrKeyOf cssMarginLeft [("clean", .vBool true)] = ltrKeyOf cssMarginLeft [] :=
  fingerprint_normalization cssMarginLeft [("clean", .vBool true)] []
    (by decide) (by decide) (by decide)

/-- C5.  The cache never holds more than `maxSize` entries: any sequence of
`set` calls starting at or below the bound stays at or below it; and a
`set` issued while the cache is full first evicts an entry whose
`expiresAt` is minimal among all stored entries (the choice is by expiry,
not recency), counting one eviction. -/
theorem cache_bounded_and_min_eviction (st : CacheState) (ops : List SetOp)
    (k : String) (v : ConvResult) (now ttl : Nat)
    (hst : st.entries.length ≤ maxSize) :
    (applySets st ops).entries.length ≤ maxSize ∧
    (maxSize ≤ st.entries.length →
      ∃ ek eit, (ek, eit) ∈ st.entries ∧
        (∀ p ∈ st.entries, eit.expiresAt ≤ p.2.expiresAt) ∧
        (cacheSet st k v now ttl).entries
          = setEntry (eraseKey st.entries ek) k ⟨v, now + ttl⟩ ∧
        (cacheSet st k v now ttl).evicted = st.evicted + 1) := by
  refine ⟨applySets_length_le ops hst, ?_⟩
  intro hfull
  have hne : st.entries ≠ [] := by
    intro hnil
    rw [hnil] at hfull
    simp [maxSize] at hfull
  obtain ⟨r, hr, hmem, hall⟩ := chooseMin_of_ne_nil hne
  obtain ⟨hent, hev⟩ := cacheSet_entries_of_full k v now ttl hfull hr
  exact ⟨r.1, r.2, by simpa using hmem, hall, hent, hev⟩

def resDemo : ConvResult := ⟨"demo", ⟨4, 4, 1, false⟩⟩

/-- C5 witness: one insertion into the empty cache stays within the
bound. -/
theorem cache_bounded_and_min_eviction_witness :
    (applySets emptyCache [⟨"a", resDemo, 0, 5⟩]).entries.length ≤ maxSize ∧
    (maxSize ≤ emptyCache.entries.length →
      ∃ ek eit, (ek, eit) ∈ emptyCache.entries ∧
        (∀ p ∈ emptyCache.entries, eit.expiresAt ≤ p.2.expiresAt) ∧
        (cacheSet emptyCache "b" resDemo 0 5).entries
          = setEntry (eraseKey emptyCache.entries ek) "b" ⟨resDemo, 0 + 5⟩ ∧
        (cacheSet emptyCache "b" resDemo 0 5).evicted = emptyCache.evicted + 1) :=
  cache_bounded_and_min_eviction emptyCache [⟨"a", resDemo, 0, 5⟩] "b" resDemo 0 5 (by decide)

/-- C6.  `get` never serves a stale value: a key whose entry has expired
(`expiresAt < now`) is reported as a miss and the entry is deleted (and
counted as evicted), and any value `get` does return comes from an entry
whose `expiresAt` is not in the past. -/
theorem cache_get_no_stale_hit (st : CacheState) (now : Nat) (k : String) :
    (∀ item, lookupEntry st.entries k = some item → item.expiresAt < now →
      cacheGet st now k =
        (none, { st with entries := eraseKey st.entries k,
                         misses := st.misses + 1, evicted := st.evicted + 1 })) ∧
    (∀ v st2, cacheGet st now k = (some v, st2) →
      ∃ item, lookupEntry st.entries k = some item ∧ v = item.value ∧ now ≤ item.expiresAt) := by
  constructor
  · intro item hlk hexp
    unfold cacheGet
    simp only [hlk]
    rw [if_pos hexp]
  · intro v st2 hget
    unfold cacheGet at hget
    cases hlk : lookupEntry st.entries k with
    | none => simp [hlk] at hget
    | some item =>
      simp only [hlk] at hget
      by_cases hexp : item.expiresAt < now
      · rw [if_pos hexp] at hget
        simp at hget
      · rw [if_neg hexp] at hget
        have h1 : some item.value = some v := congrArg Prod.fst hget
        exact ⟨item, rfl, (Option.some.inj h1).symm, Nat.le_of_not_lt hexp⟩

def resStale : ConvResult := ⟨"cached-text", ⟨3, 4, 2, false⟩⟩

def stStale : CacheState := ⟨[("k1", ⟨resStale, 3⟩)], 0, 0, 1, 0⟩

/-- C6 witness: an entry expired at time 3 queried at time 10 is a miss and
is removed. -/
theorem cache_get_no_stale_hit_witness :
    cacheGet stStale 10 "k1" =
      (none, { stStale with
               entries := eraseKey stStale.entries "k1",
               misses := stStale.misses + 1,
               evicted := stStale.evicted + 1 }) :=
  (cache_get_no_stale_hit stStale 10 "k1").1 ⟨resStale, 3⟩ rfl (by decide)

/-- C8 (amended).  If the transform step of an `ltrToRtl` call fails, the
call returns the wrapped conversion error and nothing is stored: the state
is exactly the state after the cache lookup, whose `stored` and `hits`
counters equal the initial ones and whose entries are a subset of the
initial entries (the lookup itself may have counted a miss and dropped an
already-expired entry, so the cache state is not literally unchanged). -/
theorem transform_failure_stores_nothing
    (proc : String → List (String × OptVal) → Except String String)
    (st : CacheState) (now elapsed : Nat) (s : String) (user : List (String × OptVal))
    (msg : String) (hs : s ≠ "")
    (hmiss : (cacheGet st now (ltrKeyOf s user)).1 = none)
    (hfail : proc s (mergeOptions user) = .error msg) :
    ltrToRtlWith proc st now elapsed (.jsStr s) user
      = (.error errConversion, (cacheGet st now (ltrKeyOf s user)).2) ∧
    (cacheGet st now (ltrKeyOf s user)).2.stored = st.stored ∧
    (cacheGet st now (ltrKeyOf s user)).2.hits = st.hits ∧
    ∀ p ∈ (cacheGet st now (ltrKeyOf s user)).2.entries, p ∈ st.entries := by
  refine ⟨?_, cacheGet_stored_eq st now _, cacheGet_hits_of_none hmiss,
    fun p hp => cacheGet_entries_subset hp⟩
  have hpair : cacheGet st now (ltrKeyOf s user)
      = (none, (cacheGet st now (ltrKeyOf s user)).2) := by
    rw [← hmiss]
  simp only [ltrToRtlWith]
  rw [if_neg hs]
  simp only [ltrKeyOf] at hpair
  rw [hpair]
  simp [hfail, ltrKeyOf]

def procBoom : String → List (String × OptVal) → Except String String :=
  fun _ _ => .error "transform failure"

/-- C8 witness: a failing transform on the empty cache aborts with the
conversion error and stores nothing. -/
theorem transform_failure_stores_nothing_witness :
    ltrToRtlWith procBoom emptyCache 0 4 (.jsStr cssMarginLeft) []
      = (.error errConversion, (cacheGet emptyCache 0 (ltrKeyOf cssMarginLeft [])).2) ∧
    (cacheGet emptyCache 0 (ltrKeyOf cssMarginLeft [])).2.stored = emptyCache.stored ∧
    (cacheGet emptyCache 0 (ltrKeyOf cssMarginLeft [])).2.hits = emptyCache.hits ∧
    ∀ p ∈ (cacheGet emptyCache 0 (ltrKeyOf cssMarginLeft [])).2.entries, p ∈ emptyCache.entries :=
  transform_failure_stores_nothing procBoom emptyCache 0 4 cssMarginLeft []
    "transform failure" (by decide) (by decide) rfl

/-- C8 counterexample: the claim's "cache state is unchanged" is false as
stated — a failed conversion still performs the lookup, so the miss counter
has increased. -/
theorem transform_failure_mutates_counters :
    (ltrToRtlWith procBoom emptyCache 0 4 (.jsStr cssMarginLeft) []).1.isOk = false ∧
    (ltrToRtlWith procBoom emptyCache 0 4 (.jsStr cssMarginLeft) []).2 ≠ emptyCache ∧
    (ltrToRtlWith procBoom emptyCache 0 4 (.jsStr cssMarginLeft) []).2.misses
      = emptyCache.misses + 1 := by
  refine ⟨by decide, by decide, by decide⟩

end RtlcssService
